import Mathlib

/-!
Verification of the AIM-Q topology explorer core against its specification.

The Go source is shallowly embedded: the RabbitMQ data model
(internal/rabbitmq/models.go), the broker client's aggregate fetch
(client.go), and the ViewModel (internal/ui/viewmodel.go) with its tree
construction, tree diffing, update channel and auto-refresh loop, plus the
Explorer's tree-state preservation (internal/ui/app.go).

Go pointers that may be nil are modelled as Option; the Go buffered channel
of capacity 1 is modelled as a pending-notification count; the Go map used
for vhost grouping is modelled by its insertion-ordered key list together
with an arbitrary iteration order (Go randomizes map range order); errors
are modelled with Except over String.
-/

namespace AIMQ

/-- Model of the Go Arguments maps (internal/rabbitmq/models.go): an
association list of stringified values. No code under verification inspects
these values, so the representation is inert. -/
abbrev ArgMap := List (String × String)

/-- MessageStats embedded struct of Queue (models.go). -/
structure MessageStats where
  Messages : Int
  MessagesReady : Int
  MessagesUnacked : Int
deriving DecidableEq

/-- Exchange (models.go): a RabbitMQ exchange configuration. -/
structure Exchange where
  Name : String
  «Type» : String
  Vhost : String
  Durable : Bool
  AutoDelete : Bool
  Arguments : ArgMap
deriving DecidableEq

/-- Queue (models.go): a RabbitMQ queue configuration. -/
structure Queue where
  Name : String
  Vhost : String
  Durable : Bool
  AutoDelete : Bool
  Arguments : ArgMap
  MessageStats : MessageStats
deriving DecidableEq

/-- Binding (models.go): routing rule from a source exchange to a destination. -/
structure Binding where
  Source : String
  Destination : String
  DestType : String
  Vhost : String
  RoutingKey : String
deriving DecidableEq

/-- ChannelDetail embedded struct of Consumer (models.go). -/
structure ChannelDetail where
  PID : Int
deriving DecidableEq

/-- Consumer (models.go): a subscriber attached to a queue. -/
structure Consumer where
  Queue : String
  ConsumerTag : String
  Vhost : String
  ChannelDetail : ChannelDetail
deriving DecidableEq

/-- Topology (models.go): the full snapshot of broker configuration. -/
structure Topology where
  Exchanges : List Exchange
  Queues : List Queue
  Bindings : List Binding
  Consumers : List Consumer
deriving DecidableEq

/-- Options (internal/cli): command line arguments for generate or tui. -/
structure Options where
  URI : String
  GroupBy : String
  FilterVhost : String
  FilterExchange : String
  OutFile : String
  ShowMsgStats : Bool
deriving DecidableEq

/-- TreeNode (viewmodel.go): a display-tree value, text label plus ordered
children. This models a non-nil Go *TreeNode; nilable pointer positions use
Option. -/
inductive TreeNode where
  | mk (Text : String) (Children : List TreeNode)

/-- Text field accessor of TreeNode. -/
def TreeNode.Text : TreeNode → String
  | .mk t _ => t

/-- Children field accessor of TreeNode. -/
def TreeNode.Children : TreeNode → List TreeNode
  | .mk _ c => c

/-- Mutual induction principle for TreeNode and its child lists, a thin
wrapper around the nested recursor. -/
theorem TreeNode.mutualIndDisplay {motive_1 : TreeNode → Prop}
    {motive_2 : List TreeNode → Prop}
    (hmk : ∀ t c, motive_2 c → motive_1 (TreeNode.mk t c))
    (hnil : motive_2 [])
    (hcons : ∀ x xs, motive_1 x → motive_2 xs → motive_2 (x :: xs)) :
    ∀ a, motive_1 a :=
  fun a => TreeNode.rec hmk hnil hcons a

mutual

/-- Body of treeEqual (viewmodel.go) for two non-nil nodes: texts equal,
child counts equal, and children equal element-wise. -/
def nodeEqual : TreeNode → TreeNode → Bool
  | .mk t1 c1, .mk t2 c2 =>
    if t1 ≠ t2 ∨ c1.length ≠ c2.length then false
    else childrenEqual c1 c2

/-- Element-wise loop of treeEqual over the child slices; only invoked on
slices of equal length (the caller checks lengths first, as the Go loop
would otherwise index out of range). -/
def childrenEqual : List TreeNode → List TreeNode → Bool
  | [], _ => true
  | _ :: _, [] => true
  | a :: as, b :: bs =>
    if ¬ nodeEqual a b then false else childrenEqual as bs

end

/-- treeEqual (viewmodel.go line 119): nil pointers compare equal only to
nil; otherwise structural comparison of the two nodes. -/
def treeEqual : Option TreeNode → Option TreeNode → Bool
  | none, none => true
  | none, some _ => false
  | some _, none => false
  | some a, some b => nodeEqual a b

/-- HasTreeChanged (viewmodel.go line 111) as a pure state transformer on
the stored lastTree: returns the boolean result and the new lastTree. -/
def HasTreeChanged (lastTree newTree : Option TreeNode) :
    Bool × Option TreeNode :=
  if ¬ treeEqual lastTree newTree then (true, newTree)
  else (false, lastTree)

/-- nodeEqual decides propositional equality of display trees: it is true
exactly when labels match and child sequences match element-wise in order
and length, which for this pure data type is equality. -/
theorem nodeEqual_eq_true_iff :
    ∀ a b : TreeNode, nodeEqual a b = true ↔ a = b := by
  have main := TreeNode.mutualIndDisplay
    (motive_1 := fun a => ∀ b, nodeEqual a b = true ↔ a = b)
    (motive_2 := fun l => ∀ m : List TreeNode,
      l.length = m.length → (childrenEqual l m = true ↔ l = m))
    (by
      intro t c ih b
      cases b with
      | mk t2 c2 =>
        rw [nodeEqual]
        by_cases hcond : t ≠ t2 ∨ c.length ≠ c2.length
        · rw [if_pos hcond]
          constructor
          · intro h; exact absurd h (by simp)
          · intro h
            injection h with h1 h2
            rcases hcond with hc | hc
            · exact absurd h1 hc
            · exact absurd (by rw [h2]) hc
        · rw [if_neg hcond]
          push_neg at hcond
          obtain ⟨ht, hl⟩ := hcond
          rw [ih c2 hl]
          subst ht
          simp)
    (by
      intro m hm
      cases m with
      | nil => simp [childrenEqual]
      | cons y ys => simp at hm)
    (by
      intro x xs ihx ihxs m hm
      cases m with
      | nil => simp at hm
      | cons y ys =>
        rw [childrenEqual]
        simp only [List.length_cons, Nat.succ.injEq] at hm
        by_cases hxy : nodeEqual x y = true
        · rw [if_neg (by simp [hxy])]
          rw [ihxs ys hm]
          rw [ihx y] at hxy
          subst hxy
          simp
        · rw [if_pos hxy]
          constructor
          · intro h; exact absurd h (by simp)
          · intro h
            injection h with h1 h2
            subst h1
            exact absurd ((ihx x).mpr rfl) hxy)
  exact main

instance : DecidableEq TreeNode := fun a b =>
  decidable_of_iff (nodeEqual a b = true) (nodeEqual_eq_true_iff a b)

/-- treeEqual on nilable pointers decides equality of Option TreeNode. -/
theorem treeEqual_eq_true_iff (a b : Option TreeNode) :
    treeEqual a b = true ↔ a = b := by
  cases a with
  | none => cases b <;> simp [treeEqual]
  | some x =>
    cases b with
    | none => simp [treeEqual]
    | some y =>
      rw [treeEqual, nodeEqual_eq_true_iff]
      simp

/-- C1: HasTreeChanged returns true iff the new tree differs structurally
from the stored last rendered tree; on true the stored tree becomes the new
tree, on false the stored state is untouched; the first call after
construction (stored state empty) returns true, a repeated call with a
structurally identical tree returns false, and a call with any differing
tree returns true. -/
theorem hasTreeChanged_spec (lastTree : Option TreeNode) (t : TreeNode) :
    ((HasTreeChanged lastTree (some t)).1 = true ↔ lastTree ≠ some t) ∧
    ((HasTreeChanged lastTree (some t)).1 = true →
      (HasTreeChanged lastTree (some t)).2 = some t) ∧
    ((HasTreeChanged lastTree (some t)).1 = false →
      (HasTreeChanged lastTree (some t)).2 = lastTree) ∧
    (HasTreeChanged none (some t)).1 = true ∧
    (HasTreeChanged (some t) (some t)).1 = false ∧
    (∀ t' : TreeNode, t' ≠ t →
      (HasTreeChanged (some t) (some t')).1 = true) := by
  refine ⟨?_, ?_, ?_, ?_, ?_, ?_⟩
  · rw [HasTreeChanged]
    by_cases h : treeEqual lastTree (some t) = true
    · rw [treeEqual_eq_true_iff] at h
      simp [HasTreeChanged, treeEqual_eq_true_iff, h]
    · rw [treeEqual_eq_true_iff] at h
      simp [HasTreeChanged, treeEqual_eq_true_iff, h]
  · rw [HasTreeChanged]
    by_cases h : treeEqual lastTree (some t) = true
    · simp [h]
    · simp [h]
  · rw [HasTreeChanged]
    by_cases h : treeEqual lastTree (some t) = true
    · simp [h]
    · simp [h]
  · rw [HasTreeChanged]
    simp [treeEqual]
  · rw [HasTreeChanged]
    have h : treeEqual (some t) (some t) = true := by
      rw [treeEqual_eq_true_iff]
    simp [h]
  · intro t' ht'
    rw [HasTreeChanged]
    have h : treeEqual (some t) (some t') = false := by
      rcases hb : treeEqual (some t) (some t') with _ | _
      · rfl
      · rw [treeEqual_eq_true_iff] at hb
        injection hb with hb'
        exact absurd hb'.symm ht'
    simp [h]

/-- Witness for C1 at concrete inputs: a first call with a one-node tree on
empty prior state returns true, and a repeated identical call returns
false. -/
theorem hasTreeChanged_spec_witness :
    (HasTreeChanged none (some (TreeNode.mk "root" []))).1 = true ∧
    (HasTreeChanged (some (TreeNode.mk "root" []))
      (some (TreeNode.mk "root" []))).1 = false :=
  ⟨(hasTreeChanged_spec none (TreeNode.mk "root" [])).2.2.2.1,
   (hasTreeChanged_spec none (TreeNode.mk "root" [])).2.2.2.2.1⟩

/-- ViewModel state (viewmodel.go): the nilable current topology snapshot,
the buffered update channel of capacity 1 modelled as a count of pending
notifications, and the nilable last rendered tree. The Client field is
modelled by passing each fetch outcome explicitly. -/
structure ViewModel where
  topology : Option Topology
  updateChan : Nat
  lastTree : Option TreeNode
deriving DecidableEq

/-- NewViewModel (viewmodel.go line 32): nil topology, empty buffered
channel of capacity 1, nil lastTree. -/
def NewViewModel : ViewModel :=
  { topology := none, updateChan := 0, lastTree := none }

/-- signalUpdate (viewmodel.go line 76): non-blocking send on the capacity-1
channel via select with a default arm — the send succeeds only when the
buffer has room, otherwise the notification is dropped (coalesced). -/
def signalUpdate (vm : ViewModel) : ViewModel :=
  if vm.updateChan < 1 then { vm with updateChan := vm.updateChan + 1 }
  else vm

/-- FetchTopology of the ViewModel (viewmodel.go line 39), with the
client's result passed in. Returns the Go error result, the new state, and
the number of signalUpdate invocations performed. -/
def vmFetchTopology (vm : ViewModel) (fetchResult : Except String Topology) :
    Except String Unit × ViewModel × Nat :=
  match fetchResult with
  | .error e => (.error e, vm, 0)
  | .ok topology => (.ok (), signalUpdate { vm with topology := some topology }, 1)

/-- Events driving the ViewModel: a fetch with its client outcome, the
consumer draining one notification from the Updates channel, and a
HasTreeChanged call updating the stored lastTree. -/
inductive VMEvent where
  | fetch (result : Except String Topology)
  | drain
  | render (newTree : Option TreeNode)

/-- One ViewModel transition per event. Draining receives from the channel
when a notification is pending (otherwise the consumer just blocks and the
state is unchanged). -/
def vmStep (vm : ViewModel) : VMEvent → ViewModel
  | .fetch r => (vmFetchTopology vm r).2.1
  | .drain =>
    if 0 < vm.updateChan then { vm with updateChan := vm.updateChan - 1 }
    else vm
  | .render t => { vm with lastTree := (HasTreeChanged vm.lastTree t).2 }

/-- Reachable ViewModel states: NewViewModel and everything obtainable from
it by fetches, drains and renders. -/
inductive Reachable : ViewModel → Prop where
  | init : Reachable NewViewModel
  | step (vm : ViewModel) (e : VMEvent) : Reachable vm → Reachable (vmStep vm e)

/-- C2: FetchTopology is atomic with respect to errors. On a successful
client fetch the stored snapshot is replaced by the new one and exactly one
update notification is signalled; on a failed client fetch the error is
returned unchanged, the whole state (snapshot and channel) is untouched,
and no notification is signalled. -/
theorem fetchTopology_atomic (vm : ViewModel) (t : Topology) (e : String) :
    (vmFetchTopology vm (.ok t)).1 = .ok () ∧
    (vmFetchTopology vm (.ok t)).2.1.topology = some t ∧
    (vmFetchTopology vm (.ok t)).2.2 = 1 ∧
    (vmFetchTopology vm (.error e)).1 = .error e ∧
    (vmFetchTopology vm (.error e)).2.1 = vm ∧
    (vmFetchTopology vm (.error e)).2.2 = 0 := by
  refine ⟨rfl, ?_, rfl, rfl, rfl, rfl⟩
  rw [vmFetchTopology, signalUpdate]
  by_cases h : vm.updateChan < 1
  · rw [if_pos h]
  · rw [if_neg h]

/-- Invariant: every reachable ViewModel state has at most one pending
notification in the update channel. -/
theorem reachable_chan_le_one (vm : ViewModel) (h : Reachable vm) :
    vm.updateChan ≤ 1 := by
  induction h with
  | init => simp [NewViewModel]
  | step vm' e hr ih =>
    cases e with
    | fetch r =>
      cases r with
      | error msg => simpa [vmStep, vmFetchTopology] using ih
      | ok t =>
        rw [vmStep, vmFetchTopology]
        simp only [signalUpdate]
        by_cases hc : ({ vm' with topology := some t } : ViewModel).updateChan < 1
        · rw [if_pos hc]
          simpa using hc
        · rw [if_neg hc]
          simpa using ih
    | drain =>
      rw [vmStep]
      by_cases hc : 0 < vm'.updateChan
      · rw [if_pos hc]
        exact le_trans (Nat.sub_le _ _) ih
      · rw [if_neg hc]
        exact ih
    | render t =>
      simpa [vmStep] using ih

/-- C4: the update channel is single-slot with coalescing. At every
reachable ViewModel state at most one notification is pending; signalling
keeps the pending count at most one (the signal itself never blocks — it is
a total non-blocking select with default); a signal raised while a previous
notification is still undrained leaves the state unchanged (coalesced, not
queued). -/
theorem updateChan_single_slot (vm : ViewModel) (h : Reachable vm) :
    vm.updateChan ≤ 1 ∧
    (signalUpdate vm).updateChan ≤ 1 ∧
    (vm.updateChan = 1 → signalUpdate vm = vm) := by
  have hle := reachable_chan_le_one vm h
  refine ⟨hle, ?_, ?_⟩
  · rw [signalUpdate]
    by_cases hc : vm.updateChan < 1
    · rw [if_pos hc]
      simpa using hc
    · rw [if_neg hc]
      exact hle
  · intro h1
    rw [signalUpdate, if_neg (by rw [h1]; exact lt_irrefl 1)]

/-- Witness for C4 at the initial state, which is reachable by
construction. -/
theorem updateChan_single_slot_witness :
    NewViewModel.updateChan ≤ 1 ∧
    (signalUpdate NewViewModel).updateChan ≤ 1 ∧
    (NewViewModel.updateChan = 1 → signalUpdate NewViewModel = NewViewModel) :=
  updateChan_single_slot NewViewModel Reachable.init

/-- States of the StartAutoRefresh loop (viewmodel.go line 52): polling
inside the for/select, or returned after observing cancellation. -/
inductive LoopState where
  | polling
  | stopped
deriving DecidableEq

/-- Events observed by one select iteration of StartAutoRefresh: a ticker
tick carrying the outcome the fetch would produce, or context
cancellation. -/
inductive RefreshEvent where
  | tick (result : Except String Topology)
  | cancel

/-- One select iteration of StartAutoRefresh: on a tick the loop calls
FetchTopology and discards its error, staying in the loop; on cancellation
it returns. The Bool records whether a fetch attempt occurred. -/
def autoRefreshStep : LoopState → RefreshEvent → LoopState × Bool
  | .polling, .tick _ => (.polling, true)
  | .polling, .cancel => (.stopped, false)
  | .stopped, _ => (.stopped, false)

/-- Run of the auto-refresh loop over a sequence of events, counting fetch
attempts. -/
def autoRefreshRun (s : LoopState) : List RefreshEvent → LoopState × Nat
  | [] => (s, 0)
  | e :: es =>
    let step := autoRefreshStep s e
    let rest := autoRefreshRun step.1 es
    (rest.1, (if step.2 then 1 else 0) + rest.2)

/-- C9: a fetch error never terminates the auto-refresh loop (after an
error tick the loop is still polling, and every later tick in the polling
state performs another fetch attempt); the loop reaches the stopped state
only via the cancellation event; and once cancellation has been observed no
further fetch attempt ever occurs, over every subsequent event sequence. -/
theorem autoRefresh_cancellation (e : String) (evs : List RefreshEvent) :
    autoRefreshStep .polling (.tick (.error e)) = (.polling, true) ∧
    (∀ r, autoRefreshStep .polling (.tick r) = (.polling, true)) ∧
    (∀ s ev, (autoRefreshStep s ev).1 = .stopped →
      s = .stopped ∨ ev = .cancel) ∧
    autoRefreshStep .polling .cancel = (.stopped, false) ∧
    autoRefreshRun .stopped evs = (.stopped, 0) := by
  refine ⟨rfl, fun r => rfl, ?_, rfl, ?_⟩
  · intro s ev hstop
    cases s with
    | stopped => exact Or.inl rfl
    | polling =>
      cases ev with
      | tick r => exact absurd hstop (by simp [autoRefreshStep])
      | cancel => exact Or.inr rfl
  · induction evs with
    | nil => rfl
    | cons ev rest ih =>
      rw [autoRefreshRun]
      cases ev with
      | tick r => simpa [autoRefreshStep] using ih
      | cancel => simpa [autoRefreshStep] using ih

/-- Witness for C9 at a concrete event sequence: after cancellation, a
later tick produces no fetch attempt. -/
theorem autoRefresh_cancellation_witness :
    autoRefreshRun .stopped
      [.tick (.ok (Topology.mk [] [] [] [])), .cancel] = (.stopped, 0) :=
  (autoRefresh_cancellation "err"
    [.tick (.ok (Topology.mk [] [] [] [])), .cancel]).2.2.2.2

/-- Appends a child tree node under the map entry for vhost v, creating the
entry when absent (getOrCreateNode, viewmodel.go line 103). The Go map
vhosts is modelled by its entries in insertion order; the entry value is
the vhost node's accumulated child list. -/
def addVhostChild (m : List (String × List TreeNode)) (v : String)
    (c : TreeNode) : List (String × List TreeNode) :=
  match m with
  | [] => [(v, [c])]
  | (k, cs) :: rest =>
    if k = v then (k, cs ++ [c]) :: rest
    else (k, cs) :: addVhostChild rest v c

/-- The vhosts map built by the two loops of BuildTreeData (viewmodel.go
lines 88 to 96): queues are grouped first, then exchanges, each appended
under its vhost with the respective label. -/
def buildVhosts (top : Topology) : List (String × List TreeNode) :=
  let m1 := top.Queues.foldl
    (fun m q => addVhostChild m q.Vhost (TreeNode.mk ("Queue: " ++ q.Name) [])) []
  top.Exchanges.foldl
    (fun m ex => addVhostChild m ex.Vhost (TreeNode.mk ("Exchange: " ++ ex.Name) [])) m1

/-- The vhost node made from one map entry: text from getOrCreateNode, the
accumulated children. -/
def vhostNode (entry : String × List TreeNode) : TreeNode :=
  TreeNode.mk ("VHost: " ++ entry.1) entry.2

/-- BuildTreeData (viewmodel.go line 84) for a present topology, given the
order in which the final loop ranges over the vhosts map. Go leaves map
range order unspecified (and actively randomizes it), so the order is any
permutation of the map entries; admissibility of an order is stated
separately at each use. -/
def BuildTreeDataOrd (top : Topology)
    (order : List (String × List TreeNode)) : TreeNode :=
  TreeNode.mk "RabbitMQ Topology" (order.map vhostNode)

/-- BuildTreeData at the ViewModel boundary: GetTopology returns the stored
nilable snapshot and the method immediately dereferences it, so a nil
snapshot reaches the panic branch, modelled as none. -/
def vmBuildTreeData (vm : ViewModel)
    (order : List (String × List TreeNode)) : Option TreeNode :=
  match vm.topology with
  | none => none
  | some top => some (BuildTreeDataOrd top order)

/-- Snapshot used by the repository's own ViewModel test (MinimalTopology
in viewmodel_test.go): it spans the two vhosts vh1 and the default vhost. -/
def minimalTopology : Topology :=
  { Exchanges :=
      [ { Name := "ex1", «Type» := "direct", Vhost := "vh1", Durable := false,
          AutoDelete := false, Arguments := [] },
        { Name := "ex1", «Type» := "topic", Vhost := "/", Durable := false,
          AutoDelete := false, Arguments := [] } ],
    Queues :=
      [ { Name := "q1", Vhost := "vh1", Durable := false, AutoDelete := false,
          Arguments := [], MessageStats := ⟨0, 0, 0⟩ } ],
    Bindings :=
      [ { Source := "ex1", Destination := "q1", DestType := "queue",
          Vhost := "vh1", RoutingKey := "" } ],
    Consumers :=
      [ { Queue := "q1", ConsumerTag := "consumer1", Vhost := "vh1",
          ChannelDetail := ⟨667⟩ } ] }

/-- C3: BuildTreeData is not deterministic. Its final loop ranges over a Go
map, whose iteration order is unspecified and randomized per range, so on a
snapshot spanning two vhosts two calls may emit the vhost children in
different orders and yield structurally unequal trees. Both orders below
are permutations of the map entries, hence admissible iteration orders, yet
the resulting trees are structurally different. -/
theorem buildTreeData_not_deterministic :
    (buildVhosts minimalTopology).reverse.Perm (buildVhosts minimalTopology) ∧
    (buildVhosts minimalTopology).Perm (buildVhosts minimalTopology) ∧
    nodeEqual
      (BuildTreeDataOrd minimalTopology (buildVhosts minimalTopology))
      (BuildTreeDataOrd minimalTopology
        (buildVhosts minimalTopology).reverse) = false ∧
    BuildTreeDataOrd minimalTopology (buildVhosts minimalTopology) ≠
      BuildTreeDataOrd minimalTopology (buildVhosts minimalTopology).reverse := by
  refine ⟨List.reverse_perm _, List.Perm.refl _, ?_, ?_⟩
  · decide
  · intro hcontra
    have h := (nodeEqual_eq_true_iff _ _).mpr hcontra
    rw [show nodeEqual
      (BuildTreeDataOrd minimalTopology (buildVhosts minimalTopology))
      (BuildTreeDataOrd minimalTopology
        (buildVhosts minimalTopology).reverse) = false from by decide] at h
    exact absurd h (by simp)

/-- Snapshot of the end-to-end scenario of C8: one exchange ex1 of type
direct, one queue q1, one binding and one consumer, all in vhost vh1. -/
def scenarioTopology : Topology :=
  { Exchanges :=
      [ { Name := "ex1", «Type» := "direct", Vhost := "vh1", Durable := false,
          AutoDelete := false, Arguments := [] } ],
    Queues :=
      [ { Name := "q1", Vhost := "vh1", Durable := false, AutoDelete := false,
          Arguments := [], MessageStats := ⟨0, 0, 0⟩ } ],
    Bindings :=
      [ { Source := "ex1", Destination := "q1", DestType := "queue",
          Vhost := "vh1", RoutingKey := "" } ],
    Consumers :=
      [ { Queue := "q1", ConsumerTag := "c1", Vhost := "vh1",
          ChannelDetail := ⟨0⟩ } ] }

/-- C8: on the single-vhost scenario snapshot, for every admissible map
iteration order (the map has exactly one entry, so every permutation is
that singleton), BuildTreeData yields the root with the fixed constant
label, exactly one vhost child naming vh1, and that child has exactly the
two leaves labelled Queue: q1 and Exchange: ex1 (queues are grouped before
exchanges), each with no children. -/
theorem buildTreeData_scenario (order : List (String × List TreeNode))
    (hadm : order.Perm (buildVhosts scenarioTopology)) :
    BuildTreeDataOrd scenarioTopology order =
      TreeNode.mk "RabbitMQ Topology"
        [ TreeNode.mk "VHost: vh1"
            [ TreeNode.mk "Queue: q1" [], TreeNode.mk "Exchange: ex1" [] ] ] := by
  have hsing : buildVhosts scenarioTopology =
      [("vh1", [TreeNode.mk "Queue: q1" [], TreeNode.mk "Exchange: ex1" []])] := by
    decide
  rw [hsing] at hadm
  rw [List.perm_singleton] at hadm
  rw [hadm]
  rfl

/-- Witness for C8 with the insertion order itself, which is trivially a
permutation of the map entries. -/
theorem buildTreeData_scenario_witness :
    BuildTreeDataOrd scenarioTopology (buildVhosts scenarioTopology) =
      TreeNode.mk "RabbitMQ Topology"
        [ TreeNode.mk "VHost: vh1"
            [ TreeNode.mk "Queue: q1" [], TreeNode.mk "Exchange: ex1" [] ] ] :=
  buildTreeData_scenario (buildVhosts scenarioTopology) (List.Perm.refl _)

/-- C10: at the ViewModel boundary BuildTreeData is total only when a fetch
has succeeded. In the freshly constructed state, and in any state whose
stored snapshot is still nil, the nil dereference is reached (modelled as
none); when a snapshot is present a root node with the fixed constant label
is always returned, and an empty snapshot ranged in the only admissible
order yields a root with no children. -/
theorem vmBuildTreeData_totality (vm : ViewModel) (top : Topology)
    (order : List (String × List TreeNode))
    (hnil : vm.topology = none) :
    vmBuildTreeData vm order = none ∧
    vmBuildTreeData NewViewModel order = none ∧
    (∀ vm' : ViewModel, vm'.topology = some top →
      vmBuildTreeData vm' order =
        some (TreeNode.mk "RabbitMQ Topology" (order.map vhostNode))) ∧
    (∀ order' : List (String × List TreeNode),
      order'.Perm (buildVhosts (Topology.mk [] [] [] [])) →
      vmBuildTreeData { NewViewModel with topology := some (Topology.mk [] [] [] []) }
        order' = some (TreeNode.mk "RabbitMQ Topology" [])) := by
  refine ⟨?_, rfl, ?_, ?_⟩
  · rw [vmBuildTreeData, hnil]
  · intro vm' hsome
    rw [vmBuildTreeData, hsome]
    rfl
  · intro order' hperm
    have hempty : buildVhosts (Topology.mk [] [] [] []) = [] := rfl
    rw [hempty, List.perm_nil] at hperm
    rw [hperm]
    rfl

/-- Witness for C10 at the freshly constructed ViewModel and the empty
iteration order. -/
theorem vmBuildTreeData_totality_witness :
    vmBuildTreeData NewViewModel [] = none ∧
    vmBuildTreeData
      { NewViewModel with topology := some (Topology.mk [] [] [] []) } [] =
      some (TreeNode.mk "RabbitMQ Topology" []) :=
  ⟨(vmBuildTreeData_totality NewViewModel (Topology.mk [] [] [] []) [] rfl).1,
   (vmBuildTreeData_totality NewViewModel (Topology.mk [] [] [] []) [] rfl).2.2.2
     [] (List.Perm.refl _)⟩

/-- Responses the management API would give to the four sub-requests of the
broker client's FetchTopology (client.go), one per path. -/
structure RespEnv where
  exchanges : Except String (List Exchange)
  queues : Except String (List Queue)
  bindings : Except String (List Binding)
  consumers : Except String (List Consumer)

/-- FetchTopology of the broker client (client.go line 79): four sequential
GET sub-requests in the fixed order exchanges, queues, bindings, consumers,
failing fast on the first error with that error unchanged. The returned
list records the sub-requests actually issued, in order. -/
def clientFetchTopology (env : RespEnv) :
    Except String Topology × List String :=
  match env.exchanges with
  | .error e => (.error e, ["exchanges"])
  | .ok exchanges =>
    match env.queues with
    | .error e => (.error e, ["exchanges", "queues"])
    | .ok queues =>
      match env.bindings with
      | .error e => (.error e, ["exchanges", "queues", "bindings"])
      | .ok bindings =>
        match env.consumers with
        | .error e => (.error e, ["exchanges", "queues", "bindings", "consumers"])
        | .ok consumers =>
          (.ok { Exchanges := exchanges, Queues := queues,
                 Bindings := bindings, Consumers := consumers },
           ["exchanges", "queues", "bindings", "consumers"])

/-- C6: the broker client's FetchTopology issues its sub-requests in the
fixed order exchanges, queues, bindings, consumers and fails fast. When
every sub-request succeeds it returns the topology holding all four
collections after issuing all four requests; when the first failing
sub-request in that order errors, the whole call returns that error
unchanged, no request after the failing one is issued, and no partial
topology is returned (the result is the error, not an aggregate). -/
theorem clientFetchTopology_fail_fast (env : RespEnv)
    (exs : List Exchange) (qs : List Queue) (bs : List Binding)
    (cs : List Consumer) (e : String) :
    (env.exchanges = .ok exs → env.queues = .ok qs →
      env.bindings = .ok bs → env.consumers = .ok cs →
      clientFetchTopology env =
        (.ok { Exchanges := exs, Queues := qs, Bindings := bs, Consumers := cs },
         ["exchanges", "queues", "bindings", "consumers"])) ∧
    (env.exchanges = .error e →
      clientFetchTopology env = (.error e, ["exchanges"])) ∧
    (env.exchanges = .ok exs → env.queues = .error e →
      clientFetchTopology env = (.error e, ["exchanges", "queues"])) ∧
    (env.exchanges = .ok exs → env.queues = .ok qs →
      env.bindings = .error e →
      clientFetchTopology env = (.error e, ["exchanges", "queues", "bindings"])) ∧
    (env.exchanges = .ok exs → env.queues = .ok qs →
      env.bindings = .ok bs → env.consumers = .error e →
      clientFetchTopology env =
        (.error e, ["exchanges", "queues", "bindings", "consumers"])) ∧
    (∀ t : Topology, (clientFetchTopology env).1 = .ok t →
      env.exchanges = .ok t.Exchanges ∧ env.queues = .ok t.Queues ∧
      env.bindings = .ok t.Bindings ∧ env.consumers = .ok t.Consumers) := by
  refine ⟨?_, ?_, ?_, ?_, ?_, ?_⟩
  · intro h1 h2 h3 h4
    rw [clientFetchTopology, h1, h2, h3, h4]
  · intro h1
    rw [clientFetchTopology, h1]
  · intro h1 h2
    rw [clientFetchTopology, h1, h2]
  · intro h1 h2 h3
    rw [clientFetchTopology, h1, h2, h3]
  · intro h1 h2 h3 h4
    rw [clientFetchTopology, h1, h2, h3, h4]
  · intro t ht
    rw [clientFetchTopology] at ht
    cases hex : env.exchanges with
    | error e' => rw [hex] at ht; exact absurd ht (by simp)
    | ok exs' =>
      rw [hex] at ht
      cases hq : env.queues with
      | error e' => rw [hq] at ht; exact absurd ht (by simp)
      | ok qs' =>
        rw [hq] at ht
        cases hb : env.bindings with
        | error e' => rw [hb] at ht; exact absurd ht (by simp)
        | ok bs' =>
          rw [hb] at ht
          cases hc : env.consumers with
          | error e' => rw [hc] at ht; exact absurd ht (by simp)
          | ok cs' =>
            rw [hc] at ht
            simp only [Except.ok.injEq] at ht
            subst ht
            exact ⟨rfl, rfl, rfl, rfl⟩

/-- Witness for C6: a concrete environment whose queues request fails
stops after the second request with the error unchanged. -/
theorem clientFetchTopology_fail_fast_witness :
    clientFetchTopology
      { exchanges := .ok [], queues := .error "boom",
        bindings := .ok [], consumers := .ok [] } =
      (.error "boom", ["exchanges", "queues"]) :=
  (clientFetchTopology_fail_fast
    { exchanges := .ok [], queues := .error "boom",
      bindings := .ok [], consumers := .ok [] }
    [] [] [] [] "boom").2.2.1 rfl rfl

/-- Filter loop over exchanges (models.go lines 84 to 92): skip on vhost
mismatch when a vhost filter is set, skip on name mismatch when an
exchange filter is set, otherwise append. -/
def filterExchangesGo (opts : Options) (l : List Exchange) : List Exchange :=
  l.foldl
    (fun acc ex =>
      if opts.FilterVhost ≠ "" ∧ ex.Vhost ≠ opts.FilterVhost then acc
      else if opts.FilterExchange ≠ "" ∧ ex.Name ≠ opts.FilterExchange then acc
      else acc ++ [ex]) []

/-- Filter loop over queues (models.go lines 94 to 99). -/
def filterQueuesGo (opts : Options) (l : List Queue) : List Queue :=
  l.foldl
    (fun acc q =>
      if opts.FilterVhost ≠ "" ∧ q.Vhost ≠ opts.FilterVhost then acc
      else acc ++ [q]) []

/-- Filter loop over bindings (models.go lines 101 to 106). -/
def filterBindingsGo (opts : Options) (l : List Binding) : List Binding :=
  l.foldl
    (fun acc b =>
      if opts.FilterVhost ≠ "" ∧ b.Vhost ≠ opts.FilterVhost then acc
      else acc ++ [b]) []

/-- Filter loop over consumers (models.go lines 108 to 113). -/
def filterConsumersGo (opts : Options) (l : List Consumer) : List Consumer :=
  l.foldl
    (fun acc c =>
      if opts.FilterVhost ≠ "" ∧ c.Vhost ≠ opts.FilterVhost then acc
      else acc ++ [c]) []

/-- Topology.Filter (models.go line 81): applies the four loops. -/
def Topology.Filter (t : Topology) (opts : Options) : Topology :=
  { Exchanges := filterExchangesGo opts t.Exchanges,
    Queues := filterQueuesGo opts t.Queues,
    Bindings := filterBindingsGo opts t.Bindings,
    Consumers := filterConsumersGo opts t.Consumers }

/-- Any Go append-loop whose body keeps exactly the elements passing a test
computes the in-order filter of its input. -/
theorem go_skip_loop {α : Type} (keep : α → Bool) (f : List α → α → List α)
    (hf : ∀ acc x, f acc x = if keep x then acc ++ [x] else acc) :
    ∀ (l acc : List α), l.foldl f acc = acc ++ l.filter keep := by
  intro l
  induction l with
  | nil => intro acc; simp
  | cons x xs ih =>
    intro acc
    rw [List.foldl_cons, hf, List.filter_cons]
    cases hp : keep x with
    | true => simp [ih, List.append_assoc]
    | false => simp [ih]

/-- C7: filtering a topology by vhost vh1 with no exchange filter retains
exactly the exchanges, queues, bindings and consumers whose vhost equals
vh1 — each component is the in-order filter of the original list, so
relative order is preserved and every retained element is kept with all of
its fields unchanged. -/
theorem filter_vh1_spec (t : Topology) (opts : Options)
    (h1 : opts.FilterVhost = "vh1") (h2 : opts.FilterExchange = "") :
    (t.Filter opts).Exchanges =
      t.Exchanges.filter (fun ex => ex.Vhost == "vh1") ∧
    (t.Filter opts).Queues =
      t.Queues.filter (fun q => q.Vhost == "vh1") ∧
    (t.Filter opts).Bindings =
      t.Bindings.filter (fun b => b.Vhost == "vh1") ∧
    (t.Filter opts).Consumers =
      t.Consumers.filter (fun c => c.Vhost == "vh1") := by
  refine ⟨?_, ?_, ?_, ?_⟩
  · show filterExchangesGo opts t.Exchanges = _
    rw [filterExchangesGo]
    rw [go_skip_loop (fun ex => ex.Vhost == "vh1") _ ?_ t.Exchanges []]
    · rw [List.nil_append]
    · intro acc ex
      rw [h1, h2]
      by_cases hv : ex.Vhost = "vh1"
      · simp [hv]
      · simp [hv]
  · show filterQueuesGo opts t.Queues = _
    rw [filterQueuesGo]
    rw [go_skip_loop (fun q => q.Vhost == "vh1") _ ?_ t.Queues []]
    · rw [List.nil_append]
    · intro acc q
      rw [h1]
      by_cases hv : q.Vhost = "vh1"
      · simp [hv]
      · simp [hv]
  · show filterBindingsGo opts t.Bindings = _
    rw [filterBindingsGo]
    rw [go_skip_loop (fun b => b.Vhost == "vh1") _ ?_ t.Bindings []]
    · rw [List.nil_append]
    · intro acc b
      rw [h1]
      by_cases hv : b.Vhost = "vh1"
      · simp [hv]
      · simp [hv]
  · show filterConsumersGo opts t.Consumers = _
    rw [filterConsumersGo]
    rw [go_skip_loop (fun c => c.Vhost == "vh1") _ ?_ t.Consumers []]
    · rw [List.nil_append]
    · intro acc c
      rw [h1]
      by_cases hv : c.Vhost = "vh1"
      · simp [hv]
      · simp [hv]

/-- Witness for C7 on the repo test's own two-vhost snapshot: only the
vh1-scoped entries survive, in order, unchanged. -/
theorem filter_vh1_spec_witness :
    (minimalTopology.Filter
      { URI := "", GroupBy := "", FilterVhost := "vh1", FilterExchange := "",
        OutFile := "", ShowMsgStats := false }).Exchanges =
      minimalTopology.Exchanges.filter (fun ex => ex.Vhost == "vh1") ∧
    (minimalTopology.Filter
      { URI := "", GroupBy := "", FilterVhost := "vh1", FilterExchange := "",
        OutFile := "", ShowMsgStats := false }).Queues =
      minimalTopology.Queues.filter (fun q => q.Vhost == "vh1") :=
  ⟨(filter_vh1_spec minimalTopology
      { URI := "", GroupBy := "", FilterVhost := "vh1", FilterExchange := "",
        OutFile := "", ShowMsgStats := false } rfl rfl).1,
   (filter_vh1_spec minimalTopology
      { URI := "", GroupBy := "", FilterVhost := "vh1", FilterExchange := "",
        OutFile := "", ShowMsgStats := false } rfl rfl).2.1⟩

/-- Widget tree node of the Explorer (tview.TreeNode as used by app.go):
display text, expansion flag, ordered children. -/
inductive TVNode where
  | mk (text : String) (expanded : Bool) (children : List TVNode)

/-- GetText of a widget node. -/
def TVNode.GetText : TVNode → String
  | .mk t _ _ => t

/-- IsExpanded of a widget node. -/
def TVNode.IsExpanded : TVNode → Bool
  | .mk _ e _ => e

/-- GetChildren of a widget node. -/
def TVNode.GetChildren : TVNode → List TVNode
  | .mk _ _ c => c

/-- Mutual induction principle for TVNode and its child lists. -/
theorem TVNode.mutualIndWidget {motive_1 : TVNode → Prop}
    {motive_2 : List TVNode → Prop}
    (hmk : ∀ t e c, motive_2 c → motive_1 (TVNode.mk t e c))
    (hnil : motive_2 [])
    (hcons : ∀ x xs, motive_1 x → motive_2 xs → motive_2 (x :: xs)) :
    ∀ a, motive_1 a :=
  fun a => TVNode.rec hmk hnil hcons a

/-- Write to the Go map of type map from string to bool, modelled as an
insertion-ordered association list: a later write to the same key
overwrites the earlier value. -/
def mapSet (m : List (String × Bool)) (k : String) (v : Bool) :
    List (String × Bool) :=
  match m with
  | [] => [(k, v)]
  | (k', v') :: rest =>
    if k' = k then (k, v) :: rest else (k', v') :: mapSet rest k v

/-- Read from the modelled Go map; a missing key yields the Go zero value
false. -/
def mapGet (m : List (String × Bool)) (k : String) : Bool :=
  match m with
  | [] => false
  | (k', v) :: rest => if k' = k then v else mapGet rest k

mutual

/-- Walk of collectExpandedNodes (app.go line 354): records the expansion
state of the node keyed by its text, then recurses into the children, in
pre-order; later writes to the same text overwrite earlier ones. -/
def collectWalk (acc : List (String × Bool)) : TVNode → List (String × Bool)
  | .mk text exp children => collectWalkList (mapSet acc text exp) children

/-- Child-list leg of the collectExpandedNodes walk. -/
def collectWalkList (acc : List (String × Bool)) :
    List TVNode → List (String × Bool)
  | [] => acc
  | c :: cs => collectWalkList (collectWalk acc c) cs

end

/-- collectExpandedNodes (app.go line 354): the expansion map of the whole
displayed tree, starting from the empty map. -/
def collectExpandedNodes (root : TVNode) : List (String × Bool) :=
  collectWalk [] root

mutual

/-- Walk of restoreTreeState (app.go line 333): a node whose text is
recorded as expanded is marked expanded (a recorded false or a missing
entry leaves the node as built), a node whose text equals the previously
selected text becomes the current selection, children are walked in order.
SetCurrentNode is invoked at every match and the last call wins, so a
selection found among the children (visited after the node itself)
overrides a match on the node. The returned path addresses the selected
node by child indices from this subtree's root. -/
def restoreWalk (em : List (String × Bool)) (selText : String) :
    TVNode → TVNode × Option (List Nat)
  | .mk text exp children =>
    let exp2 := if mapGet em text then true else exp
    let r := restoreWalkChildren em selText 0 children
    (TVNode.mk text exp2 r.1,
     match r.2 with
     | some p => some p
     | none => if text = selText then some [] else none)

/-- Child-list leg of the restoreTreeState walk; i is the index of the
first child in the parent's child list, and a match in a later child
overrides one in an earlier child (later SetCurrentNode call). -/
def restoreWalkChildren (em : List (String × Bool)) (selText : String)
    (i : Nat) : List TVNode → List TVNode × Option (List Nat)
  | [] => ([], none)
  | c :: cs =>
    let rc := restoreWalk em selText c
    let rcs := restoreWalkChildren em selText (i + 1) cs
    (rc.1 :: rcs.1,
     match rcs.2 with
     | some p => some p
     | none => rc.2.map (fun p => i :: p))

end

mutual

/-- Node lookup along a path of child indices. -/
def getNodeAt : TVNode → List Nat → Option TVNode
  | n, [] => some n
  | .mk _ _ children, i :: p => getNodeAtList children i p

/-- List leg of path lookup. -/
def getNodeAtList : List TVNode → Nat → List Nat → Option TVNode
  | [], _, _ => none
  | c :: _, 0, p => getNodeAt c p
  | _ :: cs, i + 1, p => getNodeAtList cs i p

end

mutual

/-- Every node of the tree whose text equals the label is expanded. -/
def allLabelExpanded (label : String) : TVNode → Bool
  | .mk text exp children =>
    (if text = label then exp else true) && allLabelExpandedList label children

/-- List leg of allLabelExpanded. -/
def allLabelExpandedList (label : String) : List TVNode → Bool
  | [] => true
  | c :: cs => allLabelExpanded label c && allLabelExpandedList label cs

end

mutual

/-- Some node of the tree has the given text. -/
def containsText (label : String) : TVNode → Bool
  | .mk text _ children => (text == label) || containsTextList label children

/-- List leg of containsText. -/
def containsTextList (label : String) : List TVNode → Bool
  | [] => false
  | c :: cs => containsText label c || containsTextList label cs

end

/-- Reading back a map write: the written key returns the new value, any
other key is unaffected. -/
theorem mapGet_mapSet (k k' : String) (v : Bool) :
    ∀ m : List (String × Bool),
      mapGet (mapSet m k v) k' = if k = k' then v else mapGet m k' := by
  intro m
  induction m with
  | nil => simp [mapSet, mapGet]
  | cons kv rest ih =>
    obtain ⟨k1, v1⟩ := kv
    by_cases h1 : k1 = k
    · subst h1
      by_cases h2 : k1 = k'
      · simp [mapSet, mapGet, h2]
      · simp [mapSet, mapGet, h2]
    · by_cases h2 : k1 = k'
      · have hk : ¬ k = k' := fun hkk => h1 (h2.trans hkk.symm)
        have hk2 : ¬ k' = k := fun hkk => hk hkk.symm
        simp [mapSet, mapGet, h1, h2, hk, hk2, ih]
      · simp [mapSet, mapGet, h1, h2, ih]

/-- Walking a subtree whose label-matching nodes are all expanded leaves
the recorded value for that label at true when the subtree contains the
label, and untouched otherwise. -/
theorem collect_records_expanded (label : String) :
    ∀ t : TVNode, ∀ acc, allLabelExpanded label t = true →
      mapGet (collectWalk acc t) label =
        (if containsText label t = true then true else mapGet acc label) := by
  have main := TVNode.mutualIndWidget
    (motive_1 := fun t => ∀ acc, allLabelExpanded label t = true →
      mapGet (collectWalk acc t) label =
        (if containsText label t = true then true else mapGet acc label))
    (motive_2 := fun cs => ∀ acc, allLabelExpandedList label cs = true →
      mapGet (collectWalkList acc cs) label =
        (if containsTextList label cs = true then true else mapGet acc label))
    (by
      intro text exp children ih acc hall
      rw [allLabelExpanded, Bool.and_eq_true] at hall
      rw [collectWalk, containsText, ih (mapSet acc text exp) hall.2,
        mapGet_mapSet]
      by_cases hcl : containsTextList label children = true
      · rw [if_pos hcl, if_pos (by rw [hcl, Bool.or_true])]
      · rw [if_neg hcl]
        rw [Bool.not_eq_true] at hcl
        rw [hcl, Bool.or_false]
        by_cases htx : text = label
        · have hexp : exp = true := by
            have := hall.1
            rw [if_pos htx] at this
            exact this
          rw [if_pos htx, hexp, if_pos (by simp [htx])]
        · rw [if_neg htx, if_neg (by simp [htx])])
    (by
      intro acc hall
      rw [collectWalkList, containsTextList]
      rw [if_neg (by simp)])
    (by
      intro c cs ihc ihcs acc hall
      rw [allLabelExpandedList, Bool.and_eq_true] at hall
      rw [collectWalkList, containsTextList, ihcs (collectWalk acc c) hall.2,
        ihc acc hall.1]
      by_cases hcl : containsTextList label cs = true
      · rw [if_pos hcl, if_pos (by rw [hcl, Bool.or_true])]
      · rw [if_neg hcl]
        rw [Bool.not_eq_true] at hcl
        rw [hcl, Bool.or_false])
  exact main

/-- Reapplying a recorded expansion map that holds true for a label marks
every node carrying that label expanded in the rebuilt tree. -/
theorem restore_expands (em : List (String × Bool)) (s label : String)
    (hlab : mapGet em label = true) :
    ∀ t, allLabelExpanded label (restoreWalk em s t).1 = true := by
  have main := TVNode.mutualIndWidget
    (motive_1 := fun t =>
      allLabelExpanded label (restoreWalk em s t).1 = true)
    (motive_2 := fun cs => ∀ i,
      allLabelExpandedList label (restoreWalkChildren em s i cs).1 = true)
    (by
      intro text exp children ih
      rw [restoreWalk]
      simp only []
      rw [allLabelExpanded, Bool.and_eq_true]
      refine ⟨?_, ih 0⟩
      by_cases htx : text = label
      · rw [if_pos htx, htx, hlab, if_pos rfl]
      · rw [if_neg htx])
    (by
      intro i
      rw [restoreWalkChildren, allLabelExpandedList])
    (by
      intro c cs ihc ihcs i
      rw [restoreWalkChildren]
      simp only []
      rw [allLabelExpandedList, Bool.and_eq_true]
      exact ⟨ihc, ihcs (i + 1)⟩)
  exact main

/-- Restoring state does not change which texts occur in the tree. -/
theorem restore_preserves_contains (em : List (String × Bool))
    (s label : String) :
    ∀ t, containsText label (restoreWalk em s t).1 = containsText label t := by
  have main := TVNode.mutualIndWidget
    (motive_1 := fun t =>
      containsText label (restoreWalk em s t).1 = containsText label t)
    (motive_2 := fun cs => ∀ i,
      containsTextList label (restoreWalkChildren em s i cs).1 =
        containsTextList label cs)
    (by
      intro text exp children ih
      rw [restoreWalk]
      simp only []
      rw [containsText, containsText, ih 0])
    (by
      intro i
      rw [restoreWalkChildren])
    (by
      intro c cs ihc ihcs i
      rw [restoreWalkChildren]
      simp only []
      rw [containsTextList, containsTextList, ihc, ihcs (i + 1)])
  exact main

/-- Soundness of the restored selection: whenever the walk reports a
selection path, that path addresses a node of the rebuilt tree whose text
is the previously selected text. -/
theorem restore_selection_sound (em : List (String × Bool)) (s : String) :
    ∀ t, ∀ p, (restoreWalk em s t).2 = some p →
      ∃ n, getNodeAt (restoreWalk em s t).1 p = some n ∧ n.GetText = s := by
  have main := TVNode.mutualIndWidget
    (motive_1 := fun t => ∀ p, (restoreWalk em s t).2 = some p →
      ∃ n, getNodeAt (restoreWalk em s t).1 p = some n ∧ n.GetText = s)
    (motive_2 := fun cs => ∀ i p,
      (restoreWalkChildren em s i cs).2 = some p →
      ∃ j p', p = (i + j) :: p' ∧
        ∃ n, getNodeAtList (restoreWalkChildren em s i cs).1 j p' = some n ∧
          n.GetText = s)
    (by
      intro text exp children ih p hp
      rw [restoreWalk] at hp ⊢
      simp only [] at hp ⊢
      cases hr : (restoreWalkChildren em s 0 children).2 with
      | some q =>
        rw [hr] at hp
        simp only [Option.some.injEq] at hp
        subst hp
        obtain ⟨j, p', hq, n, hget, htext⟩ := ih 0 q hr
        subst hq
        rw [Nat.zero_add]
        refine ⟨n, ?_, htext⟩
        rw [getNodeAt]
        exact hget
      | none =>
        rw [hr] at hp
        by_cases htx : text = s
        · rw [if_pos htx] at hp
          simp only [Option.some.injEq] at hp
          subst hp
          exact ⟨_, rfl, htx⟩
        · rw [if_neg htx] at hp
          exact absurd hp (by simp))
    (by
      intro i p hp
      rw [restoreWalkChildren] at hp
      exact absurd hp (by simp))
    (by
      intro c cs ihc ihcs i p hp
      rw [restoreWalkChildren] at hp ⊢
      simp only [] at hp ⊢
      cases hr : (restoreWalkChildren em s (i + 1) cs).2 with
      | some q =>
        rw [hr] at hp
        simp only [Option.some.injEq] at hp
        subst hp
        obtain ⟨j, p', hq, n, hget, htext⟩ := ihcs (i + 1) q hr
        refine ⟨j + 1, p', ?_, n, ?_, htext⟩
        · rw [hq]
          have : i + 1 + j = i + (j + 1) := by omega
          rw [this]
        · rw [getNodeAtList]
          exact hget
      | none =>
        rw [hr] at hp
        cases hcsel : (restoreWalk em s c).2 with
        | none =>
          rw [hcsel] at hp
          exact absurd hp (by simp [Option.map])
        | some q =>
          rw [hcsel] at hp
          rw [show Option.map (fun p => i :: p) (some q) = some (i :: q) from rfl]
            at hp
          simp only [Option.some.injEq] at hp
          subst hp
          obtain ⟨n, hget, htext⟩ := ihc q hcsel
          refine ⟨0, q, by rw [Nat.add_zero], n, ?_, htext⟩
          rw [getNodeAtList]
          exact hget)
  exact main

/-- Completeness of the restored selection: when the rebuilt tree contains
a node carrying the previously selected text, the walk reports a
selection. -/
theorem restore_selection_complete (em : List (String × Bool)) (s : String) :
    ∀ t, containsText s t = true → (restoreWalk em s t).2 ≠ none := by
  have main := TVNode.mutualIndWidget
    (motive_1 := fun t => containsText s t = true →
      (restoreWalk em s t).2 ≠ none)
    (motive_2 := fun cs => ∀ i, containsTextList s cs = true →
      (restoreWalkChildren em s i cs).2 ≠ none)
    (by
      intro text exp children ih hct
      rw [containsText, Bool.or_eq_true] at hct
      rw [restoreWalk]
      simp only []
      cases hr : (restoreWalkChildren em s 0 children).2 with
      | some q => simp
      | none =>
        rcases hct with htx | hcl
        · rw [beq_iff_eq] at htx
          rw [if_pos htx]
          simp
        · exact absurd hr (ih 0 hcl))
    (by
      intro i h
      rw [containsTextList] at h
      exact absurd h (by simp))
    (by
      intro c cs ihc ihcs i hct
      rw [containsTextList, Bool.or_eq_true] at hct
      rw [restoreWalkChildren]
      simp only []
      cases hr : (restoreWalkChildren em s (i + 1) cs).2 with
      | some q => simp
      | none =>
        rcases hct with hc | hcl
        · cases hcsel : (restoreWalk em s c).2 with
          | none => exact absurd hcsel (ihc hc)
          | some q => simp
        · exact absurd hr (ihcs (i + 1) hcl))
  exact main

/-- C5: state preservation across a rebuild. Given a displayed tree whose
nodes labelled VHost: vh1 are expanded (in particular the node so
labelled), with Queue: q1 the selected label, recording expansion by label
via collectExpandedNodes and reapplying it with restoreTreeState onto any
rebuilt tree that still contains nodes with those labels yields a tree in
which the VHost: vh1 node is present and expanded, and the restored
selection addresses a node of the rebuilt tree labelled Queue: q1. -/
theorem restoreTreeState_round_trip (old rebuilt : TVNode)
    (hOldContains : containsText "VHost: vh1" old = true)
    (hOldExpanded : allLabelExpanded "VHost: vh1" old = true)
    (hNewVh : containsText "VHost: vh1" rebuilt = true)
    (hNewQ : containsText "Queue: q1" rebuilt = true) :
    containsText "VHost: vh1"
      (restoreWalk (collectExpandedNodes old) "Queue: q1" rebuilt).1 = true ∧
    allLabelExpanded "VHost: vh1"
      (restoreWalk (collectExpandedNodes old) "Queue: q1" rebuilt).1 = true ∧
    ∃ p n,
      (restoreWalk (collectExpandedNodes old) "Queue: q1" rebuilt).2 = some p ∧
      getNodeAt (restoreWalk (collectExpandedNodes old) "Queue: q1" rebuilt).1 p
        = some n ∧
      n.GetText = "Queue: q1" := by
  have hm : mapGet (collectExpandedNodes old) "VHost: vh1" = true := by
    rw [collectExpandedNodes,
      collect_records_expanded "VHost: vh1" old [] hOldExpanded,
      if_pos hOldContains]
  refine ⟨?_, ?_, ?_⟩
  · rw [restore_preserves_contains]
    exact hNewVh
  · exact restore_expands _ _ _ hm rebuilt
  · have hne := restore_selection_complete
      (collectExpandedNodes old) "Queue: q1" rebuilt hNewQ
    cases hsel :
        (restoreWalk (collectExpandedNodes old) "Queue: q1" rebuilt).2 with
    | none => exact absurd hsel hne
    | some p =>
      obtain ⟨n, hget, htext⟩ := restore_selection_sound _ _ rebuilt p hsel
      exact ⟨p, n, rfl, hget, htext⟩

/-- Displayed tree of the C5 witness: the vhost node is expanded. -/
def explorerOldTree : TVNode :=
  TVNode.mk "RabbitMQ Vhosts" true
    [ TVNode.mk "VHost: vh1" true
        [ TVNode.mk "Exchange: ex1" false [],
          TVNode.mk "Queue: q1" false [] ] ]

/-- Rebuilt tree of the C5 witness: same labels, everything collapsed as
freshly built. -/
def explorerNewTree : TVNode :=
  TVNode.mk "RabbitMQ Vhosts" true
    [ TVNode.mk "VHost: vh1" false
        [ TVNode.mk "Exchange: ex1" false [],
          TVNode.mk "Queue: q1" false [] ] ]

/-- Witness for C5 on concrete trees. -/
theorem restoreTreeState_round_trip_witness :
    containsText "VHost: vh1"
      (restoreWalk (collectExpandedNodes explorerOldTree) "Queue: q1"
        explorerNewTree).1 = true ∧
    allLabelExpanded "VHost: vh1"
      (restoreWalk (collectExpandedNodes explorerOldTree) "Queue: q1"
        explorerNewTree).1 = true ∧
    ∃ p n,
      (restoreWalk (collectExpandedNodes explorerOldTree) "Queue: q1"
        explorerNewTree).2 = some p ∧
      getNodeAt (restoreWalk (collectExpandedNodes explorerOldTree) "Queue: q1"
        explorerNewTree).1 p = some n ∧
      n.GetText = "Queue: q1" :=
  restoreTreeState_round_trip explorerOldTree explorerNewTree
    (by decide) (by decide) (by decide) (by decide)

end AIMQ
